import Mathlib

/-!
Verification of the PTB data loader (`research/maskgan/data/ptb_loader.py`).

The loader has two stages:

* `build_vocab` / `_file_to_word_ids`: count token occurrences, sort the
  distinct tokens by `(-count, token)` (Python `sorted` with that key),
  assign ids `0..N-1` in sorted order, and encode a token stream by mapping
  each token through the resulting dict, silently dropping tokens that are
  not keys of the dict.

* `ptb_iterator`: split a stream of integer ids into sentences immediately
  after every occurrence of `EOS_INDEX` (`np.split(raw, np.where(raw ==
  EOS_INDEX)[0] + 1)`), pad or truncate every sentence to width
  `sequence_length + 1` in a matrix filled with `PAD_INDEX`, and yield
  `num_sentences // batch_size` batches `(x, y, w)` where `x` is a block of
  rows without their last column, `y` the same rows without their first
  column, and `w = np.ones_like(x)`.

Tokens are modelled as their character lists (`List Char`), so that the
Python lexicographic string comparison used by the sort key is the
lexicographic order on `List Char` and all definitions stay executable.
-/

/-- A token: a whitespace-delimited string, modelled as its list of
characters so that Python's lexicographic string order is the lexicographic
order on the list. -/
abbrev Token := List Char

/-- Boolean equality on tokens is equality, taken through the decidable
equality instance so that it lines up with the `List.count` and
`List.indexOf` lemmas of the library. -/
@[reducible] instance (priority := 2000) : BEq Token :=
  instBEqOfDecidableEq

/-- The `"<eos>"` marker token appended at every line break. -/
def eosToken : Token := "<eos>".toList

/-- The `"<pad>"` marker token appended at every line break. -/
def padToken : Token := "<pad>".toList

/-- `collections.Counter(data).items()`: each distinct token of `data`
paired with its number of occurrences in `data`. -/
def tokenCounts (data : List Token) : List (Token × Nat) :=
  data.dedup.map fun w => (w, data.count w)

/-- The comparison induced by the Python sort key `lambda x: (-x[1], x[0])`
in `build_vocab`: `a` sorts no later than `b` iff `a` has the strictly
larger count, or equal counts and `a`'s token is lexicographically no larger
than `b`'s. -/
def pairLE (a b : Token × Nat) : Bool :=
  decide (b.2 < a.2 ∨ (a.2 = b.2 ∧ a.1 ≤ b.1))

/-- `count_pairs = sorted(counter.items(), key=lambda x: (-x[1], x[0]))`. -/
def countPairs (data : List Token) : List (Token × Nat) :=
  (tokenCounts data).mergeSort pairLE

/-- `words, _ = list(zip(*count_pairs))`: the distinct tokens in sorted
order; the id of a token is its position in this list. -/
def vocabWords (data : List Token) : List Token :=
  (countPairs data).map Prod.fst

/-- Lookup in `word_to_id = dict(zip(words, range(len(words))))`: the id of
`w` is its position in `words` (`words` has no duplicates), `none` when `w`
is not a key of the dict. -/
def wordId (words : List Token) (w : Token) : Option Nat :=
  if w ∈ words then some (words.indexOf w) else none

/-- The ways `build_vocab` can fail. -/
inductive BuildError where
  /-- `words, _ = list(zip(*count_pairs))` raises `ValueError` when
  `count_pairs` is empty (nothing to unpack). -/
  | unpackError
  /-- `word_to_id[w]` raises `KeyError` when the marker `w` is not in the
  vocabulary (the `"<eos>"` lookup is executed first). -/
  | missingMarker (w : Token)
  deriving DecidableEq

/-- `build_vocab` on an already tokenized corpus: sort the counted tokens,
unpack the word list (failing on an empty corpus), and look up the two
marker ids that are stored in the globals `EOS_INDEX` and `PAD_INDEX`.
Returns the word list (whose positions are the assigned ids) together with
the two marker ids. -/
def buildVocab (data : List Token) : Except BuildError (List Token × Nat × Nat) :=
  if countPairs data = [] then Except.error BuildError.unpackError
  else
    match wordId (vocabWords data) eosToken, wordId (vocabWords data) padToken with
    | some e, some p => Except.ok (vocabWords data, e, p)
    | none, _ => Except.error (BuildError.missingMarker eosToken)
    | some _, none => Except.error (BuildError.missingMarker padToken)

/-- `_file_to_word_ids`'s comprehension
`[word_to_id[word] for word in data if word in word_to_id]`: map every
token through the vocabulary, dropping tokens that are not keys. -/
def fileToWordIds (data : List Token) (words : List Token) : List Nat :=
  data.filterMap (wordId words)

/-- `np.split(raw_data, np.where(raw_data == EOS_INDEX)[0] + 1)`: cut the
id stream immediately after every occurrence of `eos`.  As with `np.split`,
the (possibly empty) final fragment after the last cut is always one of the
returned segments, so the result is never the empty list of segments. -/
def splitSentences (eos : Nat) : List Nat → List (List Nat)
  | [] => [[]]
  | x :: xs =>
    if x = eos then [x] :: splitSentences eos xs
    else
      match splitSentences eos xs with
      | s :: ss => (x :: s) :: ss
      | [] => [[x]]

/-- One row of the padded sentence matrix: the row for sentence `sent` is
`sent = sentences[i][:sequence_length+1]` written over a row of
`np.full([_, sequence_length+1], PAD_INDEX)`, i.e. the first `L+1` ids of
the sentence followed by pad ids up to width `L+1`. -/
def padRow (pad L : Nat) (sent : List Nat) : List Nat :=
  sent.take (L + 1) ++ List.replicate (L + 1 - (sent.take (L + 1)).length) pad

/-- The padded sentence matrix `data` of `ptb_iterator`: one `padRow` per
sentence of the split id stream. -/
def ptbMatrix (eos pad L : Nat) (raw : List Nat) : List (List Nat) :=
  (splitSentences eos raw).map (padRow pad L)

/-- One yielded batch `(x, y, w)` of `ptb_iterator`. -/
abbrev Batch := List (List Nat) × List (List Nat) × List (List Nat)

/-- `np.ones_like(x)`. -/
def onesLike (m : List (List Nat)) : List (List Nat) :=
  m.map fun r => r.map fun _ => 1

/-- The loop of `ptb_iterator`: for `i` in `range(len(data)//batch_size)`,
yield `x = data[i*B:(i+1)*B, :-1]`, `y = data[i*B:(i+1)*B, 1:]` and
`w = np.ones_like(x)`. -/
def ptbBatches (data : List (List Nat)) (B : Nat) : List Batch :=
  (List.range (data.length / B)).map fun i =>
    let block := (data.drop (i * B)).take B
    let x := block.map List.dropLast
    (x, block.map (List.drop 1), onesLike x)

/-- `ptb_iterator raw_data batch_size sequence_length epoch_size_override`,
with the globals `EOS_INDEX`/`PAD_INDEX` passed explicitly.  A truthy
(non-`None`, non-zero) override raises `NotImplementedError` before
anything is yielded; otherwise the full finite list of batches is
produced. -/
def ptbIterator (eos pad : Nat) (raw : List Nat) (B L : Nat)
    (override : Option Nat) : Except String (List Batch) :=
  if override.getD 0 ≠ 0 then Except.error "NotImplementedError"
  else Except.ok (ptbBatches (ptbMatrix eos pad L raw) B)

/-! ## Order properties of the sort key -/

theorem pairLE_trans : ∀ a b c : Token × Nat,
    pairLE a b = true → pairLE b c = true → pairLE a c = true := by
  intro a b c hab hbc
  simp only [pairLE, decide_eq_true_eq] at hab hbc ⊢
  rcases hab with h | ⟨h2, h1⟩ <;> rcases hbc with h' | ⟨h2', h1'⟩
  · exact Or.inl (lt_trans h' h)
  · exact Or.inl (h2' ▸ h)
  · exact Or.inl (h2 ▸ h')
  · exact Or.inr ⟨h2.trans h2', le_trans h1 h1'⟩

theorem pairLE_total : ∀ a b : Token × Nat, (pairLE a b || pairLE b a) = true := by
  intro a b
  simp only [pairLE, Bool.or_eq_true, decide_eq_true_eq]
  rcases Nat.lt_trichotomy a.2 b.2 with h | h | h
  · exact Or.inr (Or.inl h)
  · rcases le_total a.1 b.1 with hle | hle
    · exact Or.inl (Or.inr ⟨h, hle⟩)
    · exact Or.inr (Or.inr ⟨h.symm, hle⟩)
  · exact Or.inl (Or.inl h)

theorem pairLE_antisymm : ∀ a b : Token × Nat,
    pairLE a b = true → pairLE b a = true → a = b := by
  intro a b hab hba
  simp only [pairLE, decide_eq_true_eq] at hab hba
  rcases hab with h | ⟨h2, h1⟩ <;> rcases hba with h' | ⟨h2', h1'⟩
  · omega
  · omega
  · omega
  · exact Prod.ext (le_antisymm h1 h1') h2

instance : IsAntisymm (Token × Nat) (fun a b => pairLE a b = true) :=
  ⟨pairLE_antisymm⟩

theorem countPairs_sorted (data : List Token) :
    (countPairs data).Pairwise (fun a b => pairLE a b = true) :=
  List.sorted_mergeSort pairLE_trans pairLE_total (tokenCounts data)

theorem countPairs_perm (data : List Token) :
    (countPairs data).Perm (tokenCounts data) :=
  List.mergeSort_perm (tokenCounts data) pairLE

/-- Sorting by a key that is antisymmetric and total pins the sorted list
down uniquely: to evaluate `countPairs` on a concrete corpus it is enough
to exhibit a permutation of the counted pairs that is sorted. -/
theorem countPairs_eq_of (data : List Token) (E : List (Token × Nat))
    (hp : (tokenCounts data).Perm E)
    (hs : E.Pairwise (fun a b => pairLE a b = true)) :
    countPairs data = E :=
  List.eq_of_perm_of_sorted ((countPairs_perm data).trans hp)
    (countPairs_sorted data) hs

/-! ## Structural facts about the vocabulary -/

theorem snd_of_mem_countPairs (data : List Token) (p : Token × Nat)
    (hp : p ∈ countPairs data) : p.2 = data.count p.1 := by
  have hmem : p ∈ tokenCounts data := (countPairs_perm data).mem_iff.mp hp
  obtain ⟨w, _, hw⟩ := List.mem_map.mp hmem
  rw [← hw]

theorem countPairs_nodup (data : List Token) : (countPairs data).Nodup := by
  have h1 : (tokenCounts data).Nodup := by
    refine List.Nodup.map ?_ (List.nodup_dedup data)
    intro x y hxy
    exact congrArg Prod.fst hxy
  exact ((countPairs_perm data).symm).nodup h1

theorem vocabWords_perm_dedup (data : List Token) :
    (vocabWords data).Perm data.dedup := by
  have h := (countPairs_perm data).map Prod.fst
  have h2 : (tokenCounts data).map Prod.fst = data.dedup := by
    simp [tokenCounts, List.map_map, Function.comp_def]
  rw [vocabWords]
  exact h2 ▸ h

theorem mem_vocabWords (data : List Token) (w : Token) :
    w ∈ vocabWords data ↔ w ∈ data :=
  ((vocabWords_perm_dedup data).mem_iff).trans List.mem_dedup

theorem vocabWords_nodup (data : List Token) : (vocabWords data).Nodup :=
  ((vocabWords_perm_dedup data).symm).nodup (List.nodup_dedup data)

/-- In a duplicate-free list, mapping every element to its index yields
exactly the positions `0..N-1` in order. -/
theorem map_indexOf_eq_range {α : Type} [DecidableEq α] :
    ∀ (l : List α), l.Nodup → l.map (fun w => l.indexOf w) = List.range l.length
  | [], _ => rfl
  | a :: l, h => by
    have ha : a ∉ l := (List.nodup_cons.mp h).1
    have hl : l.Nodup := (List.nodup_cons.mp h).2
    have hstep : ∀ w ∈ l, List.indexOf w (a :: l) = (List.indexOf w l).succ := by
      intro w hw
      exact List.indexOf_cons_ne l (fun e => ha (e ▸ hw))
    calc (a :: l).map (fun w => (a :: l).indexOf w)
        = (a :: l).indexOf a :: l.map (fun w => (a :: l).indexOf w) := by
          simp only [List.map_cons]
      _ = 0 :: l.map (fun w => Nat.succ (l.indexOf w)) := by
          rw [List.indexOf_cons_self, List.map_congr_left hstep]
      _ = 0 :: List.map Nat.succ (l.map (fun w => l.indexOf w)) := by
          rw [List.map_map]; rfl
      _ = 0 :: List.map Nat.succ (List.range l.length) := by
          rw [map_indexOf_eq_range l hl]
      _ = List.range (a :: l).length := by
          rw [List.length_cons, List.range_succ_eq_map]

/-- The sortedness of `countPairs` transported to the word list: along the
vocabulary, counts strictly decrease or stay equal with strictly increasing
tokens. -/
theorem vocabWords_pairwise (data : List Token) :
    (vocabWords data).Pairwise (fun a b =>
      data.count b < data.count a ∨ (data.count a = data.count b ∧ a < b)) := by
  have hsorted := countPairs_sorted data
  have hnd : (countPairs data).Nodup := countPairs_nodup data
  have hcomb := hsorted.and hnd
  have hstrict : (countPairs data).Pairwise (fun p q =>
      data.count q.1 < data.count p.1 ∨
        (data.count p.1 = data.count q.1 ∧ p.1 < q.1)) := by
    refine hcomb.imp_of_mem ?_
    intro p q hp hq ⟨hle, hne⟩
    have hp2 : p.2 = data.count p.1 := snd_of_mem_countPairs data p hp
    have hq2 : q.2 = data.count q.1 := snd_of_mem_countPairs data q hq
    simp only [pairLE, decide_eq_true_eq] at hle
    rcases hle with h | ⟨h2, h1⟩
    · exact Or.inl (by rw [← hp2, ← hq2]; exact h)
    · refine Or.inr ⟨by rw [← hp2, ← hq2]; exact h2, ?_⟩
      rcases lt_or_eq_of_le h1 with hlt | heq
      · exact hlt
      · exact absurd (Prod.ext heq h2) hne
  simpa [vocabWords, List.pairwise_map] using hstrict

/-- The vocabulary depends only on the token multiset: permuting the corpus
leaves the sorted word list unchanged. -/
theorem vocabWords_perm_invariant (data data2 : List Token) (h : data.Perm data2) :
    vocabWords data2 = vocabWords data := by
  have hTC : (tokenCounts data2).Perm (tokenCounts data) := by
    have hmap : data2.dedup.map (fun w => (w, data2.count w))
        = data2.dedup.map (fun w => (w, data.count w)) :=
      List.map_congr_left (fun w _ => by rw [h.count_eq w])
    rw [tokenCounts, hmap]
    exact (List.Perm.map _ h.dedup).symm
  have hperm : (countPairs data2).Perm (countPairs data) :=
    ((countPairs_perm data2).trans hTC).trans (countPairs_perm data).symm
  have heq : countPairs data2 = countPairs data :=
    List.eq_of_perm_of_sorted hperm (countPairs_sorted data2) (countPairs_sorted data)
  rw [vocabWords, heq, vocabWords]

/-- C1: for every nonempty token list, the vocabulary-assignment step of
`build_vocab` produces a duplicate-free word list containing exactly the
corpus tokens; `word_to_id` sends each token to its position, these
positions are exactly `0..N-1` with no gaps or repeats; along increasing
ids the counts strictly decrease, with count-ties broken by strictly
ascending lexicographic token order; id `0` is held by a token of maximal
count that is lexicographically least among maximal-count tokens; and the
whole assignment is invariant under permuting the corpus, so it depends
only on the token multiset. -/
theorem build_vocab_assignment (data : List Token) (hne : data ≠ []) :
    (vocabWords data).Nodup
    ∧ (∀ w, w ∈ vocabWords data ↔ w ∈ data)
    ∧ (∀ w ∈ data, wordId (vocabWords data) w = some ((vocabWords data).indexOf w))
    ∧ (vocabWords data).map (fun w => (vocabWords data).indexOf w)
        = List.range (vocabWords data).length
    ∧ (vocabWords data).Pairwise (fun a b =>
        data.count b < data.count a ∨ (data.count a = data.count b ∧ a < b))
    ∧ (∃ w0, w0 ∈ data ∧ (vocabWords data).indexOf w0 = 0
        ∧ (∀ w ∈ data, data.count w ≤ data.count w0)
        ∧ (∀ w ∈ data, data.count w = data.count w0 → w0 ≤ w))
    ∧ (∀ data2, data.Perm data2 → vocabWords data2 = vocabWords data) := by
  refine ⟨vocabWords_nodup data, mem_vocabWords data, ?_, ?_, vocabWords_pairwise data, ?_, ?_⟩
  · intro w hw
    rw [wordId, if_pos ((mem_vocabWords data w).mpr hw)]
  · exact map_indexOf_eq_range (vocabWords data) (vocabWords_nodup data)
  · obtain ⟨a, ha⟩ := List.exists_mem_of_ne_nil data hne
    have hVne : vocabWords data ≠ [] :=
      List.ne_nil_of_mem ((mem_vocabWords data a).mpr ha)
    obtain ⟨w0, rest, hV⟩ := List.exists_cons_of_ne_nil hVne
    have hPW := vocabWords_pairwise data
    rw [hV] at hPW
    have hhead := (List.pairwise_cons.mp hPW).1
    refine ⟨w0, (mem_vocabWords data w0).mp (hV ▸ List.mem_cons_self w0 rest), ?_, ?_, ?_⟩
    · rw [hV, List.indexOf_cons_self]
    · intro w hw
      have hwV : w ∈ w0 :: rest := hV ▸ (mem_vocabWords data w).mpr hw
      rcases List.mem_cons.mp hwV with rfl | hwr
      · exact le_refl _
      · rcases hhead w hwr with hlt | ⟨hceq, _⟩
        · exact le_of_lt hlt
        · exact le_of_eq hceq.symm
    · intro w hw hceq
      have hwV : w ∈ w0 :: rest := hV ▸ (mem_vocabWords data w).mpr hw
      rcases List.mem_cons.mp hwV with rfl | hwr
      · exact le_refl _
      · rcases hhead w hwr with hlt | ⟨_, hlt⟩
        · omega
        · exact le_of_lt hlt
  · exact fun data2 h => vocabWords_perm_invariant data data2 h

/-- A sample corpus for instantiating `build_vocab_assignment`. -/
def sampleCorpus : List Token := ["b".toList, "a".toList, "b".toList]

/-- Witness for C1: `build_vocab_assignment` applied to the concrete corpus
`["b", "a", "b"]`. -/
theorem build_vocab_assignment_witness :
    (vocabWords sampleCorpus).Nodup
    ∧ (∀ w, w ∈ vocabWords sampleCorpus ↔ w ∈ sampleCorpus)
    ∧ (∀ w ∈ sampleCorpus,
        wordId (vocabWords sampleCorpus) w = some ((vocabWords sampleCorpus).indexOf w))
    ∧ (vocabWords sampleCorpus).map (fun w => (vocabWords sampleCorpus).indexOf w)
        = List.range (vocabWords sampleCorpus).length
    ∧ (vocabWords sampleCorpus).Pairwise (fun a b =>
        sampleCorpus.count b < sampleCorpus.count a
          ∨ (sampleCorpus.count a = sampleCorpus.count b ∧ a < b))
    ∧ (∃ w0, w0 ∈ sampleCorpus ∧ (vocabWords sampleCorpus).indexOf w0 = 0
        ∧ (∀ w ∈ sampleCorpus, sampleCorpus.count w ≤ sampleCorpus.count w0)
        ∧ (∀ w ∈ sampleCorpus, sampleCorpus.count w = sampleCorpus.count w0 → w0 ≤ w))
    ∧ (∀ data2, sampleCorpus.Perm data2 → vocabWords data2 = vocabWords sampleCorpus) :=
  build_vocab_assignment sampleCorpus (by decide)

/-! ## Encoding: `_file_to_word_ids` -/

theorem length_filterMap_lt {α β : Type} (f : α → Option β) :
    ∀ (l : List α) (w : α), w ∈ l → f w = none → (l.filterMap f).length < l.length := by
  intro l
  induction l with
  | nil => intro w hw; cases hw
  | cons a l ih =>
    intro w hw hf
    rcases List.mem_cons.mp hw with rfl | hwl
    · rw [List.filterMap_cons_none hf]
      exact Nat.lt_succ_of_le (List.length_filterMap_le f l)
    · cases hfa : f a with
      | none =>
        rw [List.filterMap_cons_none hfa]
        exact Nat.lt_succ_of_lt (ih w hwl hf)
      | some b =>
        rw [List.filterMap_cons_some hfa]
        simpa using Nat.succ_lt_succ (ih w hwl hf)

theorem wordId_mem (words : List Token) (w : Token) (i : Nat) (h : wordId words w = some i) :
    w ∈ words := by
  rw [wordId] at h
  by_cases hmem : w ∈ words
  · exact hmem
  · rw [if_neg hmem] at h; cases h

theorem wordId_getElem (words : List Token) (w : Token) (i : Nat) (h : wordId words w = some i) :
    words[i]? = some w := by
  have hmem := wordId_mem words w i h
  rw [wordId, if_pos hmem] at h
  have hi : i = words.indexOf w := (Option.some.inj h).symm
  subst hi
  rw [← List.get?_eq_getElem?]
  exact List.indexOf_get? hmem

/-- C7: encoding maps each in-vocabulary token to its id in order and drops
every out-of-vocabulary token: when at least one token of the stream is
absent from the vocabulary, the output id stream is strictly shorter than
the token count, and no output id decodes to the dropped token (no
placeholder id is substituted). -/
theorem encode_drops_oov (data words : List Token) (w : Token)
    (hw : w ∈ data) (habs : w ∉ words) :
    (fileToWordIds data words).length < data.length ∧
    ∀ i ∈ fileToWordIds data words, words[i]? ≠ some w := by
  constructor
  · exact length_filterMap_lt (wordId words) data w hw (by rw [wordId, if_neg habs])
  · intro i hi hcontra
    obtain ⟨u, _, hui⟩ := List.mem_filterMap.mp hi
    have h1 : words[i]? = some u := wordId_getElem words u i hui
    rw [h1] at hcontra
    have h2 : u = w := Option.some.inj hcontra
    exact habs (h2 ▸ wordId_mem words u i hui)

/-- Witness for C7: in the stream `["a", "x"]` with vocabulary `["a"]`, the
token `"x"` is dropped. -/
theorem encode_drops_oov_witness :
    (fileToWordIds ["a".toList, "x".toList] ["a".toList]).length
        < (["a".toList, "x".toList] : List Token).length ∧
    ∀ i ∈ fileToWordIds ["a".toList, "x".toList] ["a".toList],
      (["a".toList] : List Token)[i]? ≠ some "x".toList :=
  encode_drops_oov ["a".toList, "x".toList] ["a".toList] "x".toList
    (by decide) (by decide)

/-- Decoding through the vocabulary list is a left inverse of encoding on
streams with no out-of-vocabulary token. -/
theorem decode_encode (words : List Token) :
    ∀ data : List Token, (∀ w ∈ data, w ∈ words) →
      (fileToWordIds data words).filterMap (fun i => words[i]?) = data := by
  intro data
  induction data with
  | nil => intro _; rfl
  | cons w data ih =>
    intro hall
    have hw : w ∈ words := hall w (List.mem_cons_self w data)
    have hrest := ih fun u hu => hall u (List.mem_cons_of_mem w hu)
    simp only [fileToWordIds] at hrest ⊢
    rw [List.filterMap_cons_some (by rw [wordId, if_pos hw])]
    rw [List.filterMap_cons_some
      (by rw [← List.get?_eq_getElem?]; exact List.indexOf_get? hw)]
    rw [hrest]

/-- C8: for every token stream all of whose tokens occur in the corpus the
vocabulary was built from, encoding through `word_to_id` and then decoding
each id through the position in the word list (the inverse of the bijective
vocabulary) reproduces the original token stream exactly. -/
theorem encode_decode_roundtrip (corpus data : List Token)
    (hall : ∀ w ∈ data, w ∈ vocabWords corpus) :
    (fileToWordIds data (vocabWords corpus)).filterMap
      (fun i => (vocabWords corpus)[i]?) = data :=
  decode_encode (vocabWords corpus) data hall

/-- The vocabulary of the sample corpus `["b", "a", "b"]`: `"b"` has count
2 and id 0, `"a"` count 1 and id 1. -/
theorem vocabWords_sample : vocabWords sampleCorpus = ["b".toList, "a".toList] := by
  rw [vocabWords,
    countPairs_eq_of sampleCorpus [("b".toList, 2), ("a".toList, 1)] (by decide) (by decide)]
  rfl

/-- Witness for C8: round trip of `["a", "b", "b"]` through the vocabulary
built from the corpus `["b", "a", "b"]`. -/
theorem encode_decode_roundtrip_witness :
    (fileToWordIds ["a".toList, "b".toList, "b".toList] (vocabWords sampleCorpus)).filterMap
      (fun i => (vocabWords sampleCorpus)[i]?) = ["a".toList, "b".toList, "b".toList] :=
  encode_decode_roundtrip sampleCorpus ["a".toList, "b".toList, "b".toList]
    (by rw [vocabWords_sample]; decide)

/-! ## The padded sentence matrix -/

theorem padRow_length (pad L : Nat) (sent : List Nat) :
    (padRow pad L sent).length = L + 1 := by
  have h : (sent.take (L + 1)).length ≤ L + 1 := by
    simp [List.length_take]
  simp only [padRow, List.length_append, List.length_replicate]
  omega

theorem padRow_getElem_lt (pad L : Nat) (sent : List Nat) (j : Nat)
    (hj : j < min sent.length (L + 1)) :
    (padRow pad L sent)[j]? = sent[j]? := by
  have hlen : (sent.take (L + 1)).length = min (L + 1) sent.length :=
    List.length_take (L + 1) sent
  rw [padRow, List.getElem?_append_left (by omega)]
  exact List.getElem?_take_of_lt (by omega)

theorem padRow_getElem_pad (pad L : Nat) (sent : List Nat) (j : Nat)
    (hlo : min sent.length (L + 1) ≤ j) (hhi : j < L + 1) :
    (padRow pad L sent)[j]? = some pad := by
  have hlen : (sent.take (L + 1)).length = min (L + 1) sent.length :=
    List.length_take (L + 1) sent
  rw [padRow, List.getElem?_append_right (by omega), List.getElem?_replicate]
  rw [if_pos (by omega)]

/-- C4: the padded sentence matrix has one row per sentence, each row has
width `sequence_length + 1`, row `i` holds the first
`min (length sentence_i) (L+1)` ids of sentence `i` in order (longer
sentences are silently truncated), and every remaining entry of the row is
the pad id. -/
theorem ptb_matrix_layout (eos pad L : Nat) (raw : List Nat) :
    (ptbMatrix eos pad L raw).length = (splitSentences eos raw).length ∧
    ∀ (i : Nat) (sent : List Nat), (splitSentences eos raw)[i]? = some sent →
      ∃ row : List Nat, (ptbMatrix eos pad L raw)[i]? = some row ∧
        row.length = L + 1 ∧
        (∀ j, j < min sent.length (L + 1) → row[j]? = sent[j]?) ∧
        (∀ j, min sent.length (L + 1) ≤ j → j < L + 1 → row[j]? = some pad) := by
  constructor
  · exact List.length_map _ _
  · intro i sent hi
    refine ⟨padRow pad L sent, ?_, padRow_length pad L sent,
      fun j hj => padRow_getElem_lt pad L sent j hj,
      fun j hlo hhi => padRow_getElem_pad pad L sent j hlo hhi⟩
    rw [ptbMatrix, List.getElem?_map, hi]
    rfl

/-! ## Batch slicing -/

/-- C3: with no epoch-size override the iterator succeeds and yields exactly
`floor(num_sentences / batch_size)` batches; batch `i` covers rows
`[i*B, (i+1)*B)` of the padded matrix (input drops the last column, target
the first), so batches come in increasing row-block order and the remainder
rows are dropped; fewer sentences than `batch_size` yield zero batches and
no error. -/
theorem ptb_batch_count (eos pad B L : Nat) (raw : List Nat)
    (hB : 1 ≤ B) (hL : 1 ≤ L) :
    ∃ bs : List Batch, ptbIterator eos pad raw B L none = Except.ok bs ∧
      bs.length = (splitSentences eos raw).length / B ∧
      (∀ i : Nat, i < (splitSentences eos raw).length / B →
        ∃ xyw : Batch, bs[i]? = some xyw ∧ ∀ j : Nat, j < B →
          xyw.1[j]? = ((ptbMatrix eos pad L raw)[i * B + j]?).map List.dropLast ∧
          xyw.2.1[j]? = ((ptbMatrix eos pad L raw)[i * B + j]?).map (List.drop 1)) ∧
      ((splitSentences eos raw).length < B → bs = []) := by
  have hlen : (ptbMatrix eos pad L raw).length = (splitSentences eos raw).length :=
    List.length_map _ _
  refine ⟨ptbBatches (ptbMatrix eos pad L raw) B, rfl, ?_, ?_, ?_⟩
  · simp [ptbBatches, hlen]
  · intro i hi
    rw [← hlen] at hi
    refine ⟨((((ptbMatrix eos pad L raw).drop (i * B)).take B).map List.dropLast,
      (((ptbMatrix eos pad L raw).drop (i * B)).take B).map (List.drop 1),
      onesLike ((((ptbMatrix eos pad L raw).drop (i * B)).take B).map List.dropLast)),
      ?_, ?_⟩
    · rw [ptbBatches, List.getElem?_map, List.getElem?_range hi]
      rfl
    · intro j hj
      constructor
      · rw [List.getElem?_map, List.getElem?_take_of_lt hj, List.getElem?_drop]
      · rw [List.getElem?_map, List.getElem?_take_of_lt hj, List.getElem?_drop]
  · intro hsmall
    rw [ptbBatches, hlen, Nat.div_eq_of_lt hsmall]
    rfl

/-- Witness for C3: the iterator on the stream `[1, 0]` with `eos = 0`,
`pad = 9`, `batch_size = 1`, `sequence_length = 1`. -/
theorem ptb_batch_count_witness :
    ∃ bs : List Batch, ptbIterator 0 9 [1, 0] 1 1 none = Except.ok bs ∧
      bs.length = (splitSentences 0 [1, 0]).length / 1 ∧
      (∀ i : Nat, i < (splitSentences 0 [1, 0]).length / 1 →
        ∃ xyw : Batch, bs[i]? = some xyw ∧ ∀ j : Nat, j < 1 →
          xyw.1[j]? = ((ptbMatrix 0 9 1 [1, 0])[i * 1 + j]?).map List.dropLast ∧
          xyw.2.1[j]? = ((ptbMatrix 0 9 1 [1, 0])[i * 1 + j]?).map (List.drop 1)) ∧
      ((splitSentences 0 [1, 0]).length < 1 → bs = []) :=
  ptb_batch_count 0 9 1 1 [1, 0] (by decide) (by decide)

/-- Every row of the padded matrix has width `L + 1`. -/
theorem ptbMatrix_row_length (eos pad L : Nat) (raw : List Nat)
    (r : List Nat) (hr : r ∈ ptbMatrix eos pad L raw) : r.length = L + 1 := by
  obtain ⟨sent, _, hs⟩ := List.mem_map.mp hr
  rw [← hs]
  exact padRow_length pad L sent

/-- C2: in every batch produced by the iterator (no override), the target
matrix is the input matrix shifted left by one column — `y[k][t] =
x[k][t+1]` for every row `k` and every column `t` with `t + 1 <
sequence_length` — and the weight matrix is an all-ones matrix of exactly
the shape of the input matrix. -/
theorem ptb_batch_shift_invariant (eos pad B L : Nat) (raw : List Nat)
    (hB : 1 ≤ B) (hL : 1 ≤ L) (bs : List Batch)
    (hbs : ptbIterator eos pad raw B L none = Except.ok bs)
    (xyw : Batch) (hmem : xyw ∈ bs) :
    (∀ (k t : Nat) (xr yr : List Nat), t + 1 < L →
      xyw.1[k]? = some xr → xyw.2.1[k]? = some yr → yr[t]? = xr[t + 1]?) ∧
    xyw.2.2.length = xyw.1.length ∧
    (∀ (k : Nat) (xr wr : List Nat), xyw.1[k]? = some xr → xyw.2.2[k]? = some wr →
      wr.length = xr.length ∧ ∀ v ∈ wr, v = 1) := by
  have hbs2 : bs = ptbBatches (ptbMatrix eos pad L raw) B := by
    have : Except.ok (ε := String) (ptbBatches (ptbMatrix eos pad L raw) B) = Except.ok bs :=
      hbs
    exact (Except.ok.inj this).symm
  subst hbs2
  obtain ⟨i, _, hf⟩ := List.mem_map.mp hmem
  set block := (((ptbMatrix eos pad L raw).drop (i * B)).take B) with hblock
  have hx : xyw.1 = block.map List.dropLast := by rw [← hf]
  have hy : xyw.2.1 = block.map (List.drop 1) := by rw [← hf]
  have hw : xyw.2.2 = onesLike (block.map List.dropLast) := by rw [← hf]
  refine ⟨?_, ?_, ?_⟩
  · intro k t xr yr ht hxk hyk
    rw [hx, List.getElem?_map] at hxk
    rw [hy, List.getElem?_map] at hyk
    cases hbk : block[k]? with
    | none => rw [hbk] at hxk; cases hxk
    | some r =>
      rw [hbk] at hxk hyk
      have hxr : xr = r.dropLast := (Option.some.inj hxk).symm
      have hyr : yr = r.drop 1 := (Option.some.inj hyk).symm
      have hrlen : r.length = L + 1 := by
        refine ptbMatrix_row_length eos pad L raw r ?_
        exact List.mem_of_mem_drop (List.mem_of_mem_take (List.getElem?_mem hbk))
      rw [hxr, hyr, List.getElem?_drop, List.getElem?_dropLast]
      rw [if_pos (by omega)]
      rw [Nat.add_comm 1 t]
  · rw [hw, hx, onesLike, List.length_map]
  · intro k xr wr hxk hwk
    rw [hw, onesLike, List.getElem?_map] at hwk
    rw [hx] at hxk
    rw [hxk] at hwk
    have hwr : wr = xr.map fun _ => 1 := (Option.some.inj hwk).symm
    subst hwr
    refine ⟨List.length_map _ _, ?_⟩
    intro v hv
    obtain ⟨u, _, hu⟩ := List.mem_map.mp hv
    exact hu.symm

/-- Witness for C2: the first batch of the iterator on the stream
`[1, 2, 0]` with `eos = 0`, `pad = 9`, `batch_size = 1`,
`sequence_length = 2`. -/
theorem ptb_batch_shift_invariant_witness :
    (∀ (k t : Nat) (xr yr : List Nat), t + 1 < 2 →
      (([[1, 2]], [[2, 0]], [[1, 1]]) : Batch).1[k]? = some xr →
      (([[1, 2]], [[2, 0]], [[1, 1]]) : Batch).2.1[k]? = some yr → yr[t]? = xr[t + 1]?) ∧
    (([[1, 2]], [[2, 0]], [[1, 1]]) : Batch).2.2.length
      = (([[1, 2]], [[2, 0]], [[1, 1]]) : Batch).1.length ∧
    (∀ (k : Nat) (xr wr : List Nat),
      (([[1, 2]], [[2, 0]], [[1, 1]]) : Batch).1[k]? = some xr →
      (([[1, 2]], [[2, 0]], [[1, 1]]) : Batch).2.2[k]? = some wr →
      wr.length = xr.length ∧ ∀ v ∈ wr, v = 1) :=
  ptb_batch_shift_invariant 0 9 1 2 [1, 2, 0] (by decide) (by decide)
    (ptbBatches (ptbMatrix 0 9 2 [1, 2, 0]) 1) rfl ([[1, 2]], [[2, 0]], [[1, 1]])
    (List.Mem.head _)

/-! ## The epoch-size override -/

/-- C6: any truthy (non-`None`, non-zero) `epoch_size_override` makes the
iterator fail with `NotImplementedError` before any batch is produced;
the result carries no batches, so the override is never silently ignored
or defaulted. -/
theorem override_raises (eos pad B L n : Nat) (raw : List Nat) (hn : n ≠ 0) :
    ptbIterator eos pad raw B L (some n) = Except.error "NotImplementedError" := by
  rw [ptbIterator, if_pos (by simpa using hn)]

/-- Witness for C6: override value `5` on an arbitrary small call. -/
theorem override_raises_witness :
    ptbIterator 0 0 [1, 0] 2 3 (some 5) = Except.error "NotImplementedError" :=
  override_raises 0 0 2 3 5 [1, 0] (by decide)

/-! ## `build_vocab` on an empty corpus -/

theorem countPairs_nil : countPairs [] = [] := by
  rw [countPairs, show tokenCounts [] = [] from rfl, List.mergeSort_nil]

theorem buildVocab_nil_eq : buildVocab [] = Except.error BuildError.unpackError := by
  rw [buildVocab, if_pos countPairs_nil]

/-- C9 (amended): on an empty corpus `build_vocab` fails — but with the
unpack error raised by `words, _ = list(zip(*count_pairs))` on the empty
pair list, not with the missing-marker (`KeyError`) error — and no partial
vocabulary is returned. -/
theorem build_vocab_empty_fails : buildVocab [] = Except.error BuildError.unpackError :=
  buildVocab_nil_eq

/-- Counterexample for C9 as stated: the failure on the empty corpus is the
unpack error, which is a different error kind than the missing-marker error
the claim names (for either marker). -/
theorem build_vocab_empty_counterexample :
    buildVocab [] = Except.error BuildError.unpackError ∧
    buildVocab [] ≠ Except.error (BuildError.missingMarker eosToken) ∧
    buildVocab [] ≠ Except.error (BuildError.missingMarker padToken) := by
  refine ⟨buildVocab_nil_eq, ?_, ?_⟩ <;>
    rw [buildVocab_nil_eq] <;> intro hcontra <;>
    cases Except.error.inj hcontra

/-! ## Full-length rows -/

/-- C10 (amended): a sentence of length exactly `sequence_length + 1` fills
its row completely, so no pad fill is written: the row equals the sentence
itself.  (The row can still contain the pad id — when the sentence itself
contains it, as real PTB sentences do, since `<pad>` tokens occur inside
the encoded stream.) -/
theorem full_length_row_eq_sentence (pad L : Nat) (sent : List Nat)
    (h : sent.length = L + 1) : padRow pad L sent = sent := by
  have htake : sent.take (L + 1) = sent := List.take_of_length_le (le_of_eq h)
  rw [padRow, htake, h]
  simp

/-- Witness for C10 (amended): the sentence `[5, 6]` with
`sequence_length = 1` and pad id `7`. -/
theorem full_length_row_eq_sentence_witness : padRow 7 1 [5, 6] = [5, 6] :=
  full_length_row_eq_sentence 7 1 [5, 6] (by decide)

/-- Counterexample for C10 as stated: in the stream `[2, 0, 1, 3, 0, 1]`
with `eos = 0` and `pad = 1` (the encoding of the corpus `"x\ny\n"`, where
`<eos>` gets id 0 and `<pad>` id 1), sentence 1 is `[1, 3, 0]` of length
exactly `sequence_length + 1 = 3`, and its matrix row still contains the
pad id `1` — as an ordinary sentence token, not as fill. -/
theorem full_row_no_pad_counterexample :
    (splitSentences 0 [2, 0, 1, 3, 0, 1])[1]? = some [1, 3, 0] ∧
    ([1, 3, 0] : List Nat).length = 2 + 1 ∧
    (ptbMatrix 0 1 2 [2, 0, 1, 3, 0, 1])[1]? = some [1, 3, 0] ∧
    (1 : Nat) ∈ ([1, 3, 0] : List Nat) := by
  refine ⟨by decide, by decide, by decide, ?_⟩
  exact List.mem_cons_self 1 [3, 0]

/-! ## The worked example -/

/-- The spec's worked example corpus `"a b <eos> c <eos>"`, tokenized. -/
def exampleCorpus : List Token :=
  ["a".toList, "b".toList, eosToken, "c".toList, eosToken]

theorem countPairs_example :
    countPairs exampleCorpus =
      [(eosToken, 2), ("a".toList, 1), ("b".toList, 1), ("c".toList, 1)] :=
  countPairs_eq_of exampleCorpus _ (by decide) (by decide)

theorem vocabWords_example :
    vocabWords exampleCorpus = [eosToken, "a".toList, "b".toList, "c".toList] := by
  rw [vocabWords, countPairs_example]
  rfl

/-- Counterexample for C5 as stated: on the worked example the id stream
`[1, 2, 0, 3, 0]` splits into three fragments — `np.split` cuts after each
`<eos>` id and keeps the trailing empty fragment — not into exactly two
sentences. -/
theorem worked_example_counterexample :
    vocabWords exampleCorpus = [eosToken, "a".toList, "b".toList, "c".toList] ∧
    fileToWordIds exampleCorpus (vocabWords exampleCorpus) = [1, 2, 0, 3, 0] ∧
    splitSentences 0 [1, 2, 0, 3, 0] = [[1, 2, 0], [3, 0], []] ∧
    (splitSentences 0 [1, 2, 0, 3, 0]).length ≠ 2 := by
  refine ⟨vocabWords_example, ?_, by decide, by decide⟩
  rw [vocabWords_example]
  decide

/-- C5 (amended): on the corpus `"a b <eos> c <eos>"` with
`sequence_length = 2` and `batch_size = 1`: the id assignment gives
`<eos>` id 0, `a` 1, `b` 2, `c` 3 (the full `build_vocab` call would in
fact fail on this corpus because the `<pad>` marker is absent); the encoded
stream is `[1, 2, 0, 3, 0]`; splitting on the `<eos>` id yields the two
sentences plus a trailing empty fragment; the padded matrix has three rows
of width 3; and batch 0 has input = row 0 columns `[0, 2)` and target =
row 0 columns `[1, 3)`, followed by two more batches for the remaining
rows. -/
theorem worked_example_amended (pad : Nat) :
    vocabWords exampleCorpus = [eosToken, "a".toList, "b".toList, "c".toList] ∧
    wordId (vocabWords exampleCorpus) eosToken = some 0 ∧
    fileToWordIds exampleCorpus (vocabWords exampleCorpus) = [1, 2, 0, 3, 0] ∧
    buildVocab exampleCorpus = Except.error (BuildError.missingMarker padToken) ∧
    splitSentences 0 [1, 2, 0, 3, 0] = [[1, 2, 0], [3, 0], []] ∧
    ptbMatrix 0 pad 2 [1, 2, 0, 3, 0] = [[1, 2, 0], [3, 0, pad], [pad, pad, pad]] ∧
    ptbBatches (ptbMatrix 0 pad 2 [1, 2, 0, 3, 0]) 1 =
      [([[1, 2]], [[2, 0]], [[1, 1]]),
       ([[3, 0]], [[0, pad]], [[1, 1]]),
       ([[pad, pad]], [[pad, pad]], [[1, 1]])] := by
  refine ⟨vocabWords_example, ?_, ?_, ?_, by decide, ?_, ?_⟩
  · rw [vocabWords_example]; decide
  · rw [vocabWords_example]; decide
  · rw [buildVocab, if_neg (by rw [countPairs_example]; decide), vocabWords_example]
    rfl
  · rfl
  · simp [ptbBatches, ptbMatrix, padRow, splitSentences, onesLike, List.range_succ]

/-- Witness for C5 (amended): the amended worked example at pad id 7. -/
theorem worked_example_amended_witness :
    vocabWords exampleCorpus = [eosToken, "a".toList, "b".toList, "c".toList] ∧
    wordId (vocabWords exampleCorpus) eosToken = some 0 ∧
    fileToWordIds exampleCorpus (vocabWords exampleCorpus) = [1, 2, 0, 3, 0] ∧
    buildVocab exampleCorpus = Except.error (BuildError.missingMarker padToken) ∧
    splitSentences 0 [1, 2, 0, 3, 0] = [[1, 2, 0], [3, 0], []] ∧
    ptbMatrix 0 7 2 [1, 2, 0, 3, 0] = [[1, 2, 0], [3, 0, 7], [7, 7, 7]] ∧
    ptbBatches (ptbMatrix 0 7 2 [1, 2, 0, 3, 0]) 1 =
      [([[1, 2]], [[2, 0]], [[1, 1]]),
       ([[3, 0]], [[0, 7]], [[1, 1]]),
       ([[7, 7]], [[7, 7]], [[1, 1]])] :=
  worked_example_amended 7

/-- Witness for C4: the padded matrix of the stream `[1, 0]` with
`eos = 0`, `pad = 9`, `sequence_length = 1`. -/
theorem ptb_matrix_layout_witness :
    (ptbMatrix 0 9 1 [1, 0]).length = (splitSentences 0 [1, 0]).length ∧
    ∀ (i : Nat) (sent : List Nat), (splitSentences 0 [1, 0])[i]? = some sent →
      ∃ row : List Nat, (ptbMatrix 0 9 1 [1, 0])[i]? = some row ∧
        row.length = 1 + 1 ∧
        (∀ j, j < min sent.length (1 + 1) → row[j]? = sent[j]?) ∧
        (∀ j, min sent.length (1 + 1) ≤ j → j < 1 + 1 → row[j]? = some 9) :=
  ptb_matrix_layout 0 9 1 [1, 0]
